import Mathlib

/-!
Verification of the workflow engine of the VSC-AI-Plugin repository.

The development shallowly embeds the engine sources:
  - src/src/engine/nodeExecutor.ts   (class NodeExecutor)
  - the workflow engine file          (class WorkflowEngine)
  - src/types/workflow.ts            (data model)

Modelling conventions:
  - JS values are modelled by the inductive type Value; the JS value
    undefined is modelled as the value none of Option Value.
  - JS objects and Maps are modelled as association lists in insertion
    order (Map.set keeps the original position of an existing key and
    appends new keys at the end, which setKey mirrors).
  - Wall-clock data (startTime, endTime, duration) and the event stream
    are not modelled; no claim mentions them.
  - External effects (model inference, scripts, HTTP, processes) are
    modelled by an oracle (EngineEnv) giving the outcome of each external
    node execution per attempt, and of each JS expression evaluation.
  - The cancellation signal is modelled as a function from the index of
    the node loop iteration to Bool; within one iteration the signal is
    taken as constant.
  - asynchronous/awaited calls are sequential in the source paths that
    are modelled; they are embedded as plain sequential code.
  - The recursive DFS helpers of the engine terminate because the
    recursion stack grows inside a fixed finite id set; they are embedded
    with an explicit fuel argument bounding the recursion depth, set to
    (number of ids) + 1, which the actual depth can never exceed.
-/

namespace VSCWorkflow

/-- JS-like values (null, booleans, numbers, strings, arrays, objects).
Numbers are modelled as integers; no claim involves fractional values. -/
inductive Value where
  | null : Value
  | bool : Bool → Value
  | num : Int → Value
  | str : String → Value
  | arr : List Value → Value
  | obj : List (String × Value) → Value

/-- Lookup of a key in an association list (first match), modelling JS
object property access and Map.get; none models undefined. -/
def getKey {α : Type} : List (String × α) → String → Option α
  | [], _ => none
  | (k, v) :: rest, k0 => if k = k0 then some v else getKey rest k0

/-- Setting a key in an association list, modelling JS property
assignment and Map.set: an existing key keeps its position, a new key is
appended at the end. -/
def setKey {α : Type} : List (String × α) → String → α → List (String × α)
  | [], k0, v0 => [(k0, v0)]
  | (k, v) :: rest, k0, v0 =>
      if k = k0 then (k, v0) :: rest else (k, v) :: setKey rest k0 v0

/-- Node types of the workflow engine (enum NodeType of
src/types/workflow.ts). -/
inductive NodeType where
  | condition | loop | model | download | script | apiCall | githubAction
  | osCommand | vectorGeneration | contextInjection | nestedWorkflow
  | parallel | custom
deriving DecidableEq

/-- Backoff mode of a retry policy. -/
inductive Backoff where
  | linear | exponential
deriving DecidableEq

/-- Retry policy of a node (interface RetryPolicy). -/
structure RetryPolicy where
  maxAttempts : Nat
  backoff : Backoff := .linear
  initialDelay : Nat := 1000

/-- Node configuration. The TS source is a tagged union of interfaces;
the embedding is one structure holding the common fields plus the
type-specific fields used by the embedded execution routines, with
neutral defaults for the fields a given node type does not use. -/
structure NodeConfig where
  id : String
  type : NodeType
  dependencies : List String := []
  retryPolicy : Option RetryPolicy := none
  overrides : Option (List (String × Value)) := none
  condition : String := ""
  trueBranch : List String := []
  falseBranch : List String := []
  iterationSource : String := ""
  childNodes : List String := []
  maxIterations : Option Nat := none
  waitForAll : Bool := true

/-- Workflow definition (name, version and metadata are omitted; no
claim mentions them). -/
structure WorkflowDefinition where
  id : String
  nodes : List NodeConfig
  entryNodes : List String := []

/-- Execution context (interface WorkflowContext); the id and metadata
fields are omitted, no claim mentions them. -/
structure WorkflowContext where
  data : List (String × Value) := []
  vars : List (String × Value) := []
  outputs : List (String × Value) := []

/-- Node execution status (enum NodeStatus). -/
inductive NodeStatus where
  | pending | running | success | failed | skipped
deriving DecidableEq

/-- Overall workflow status. The third constructor models the status
string the source uses for a run stopped by cancellation. -/
inductive WorkflowStatus where
  | success | failed | interrupted
deriving DecidableEq

/-- Result of one node execution (interface NodeExecutionResult);
timing fields are omitted. -/
structure NodeExecutionResult where
  nodeId : String
  status : NodeStatus
  output : Option Value := none
  error : Option String := none
  attempts : Nat

/-- Result of one workflow execution (interface WorkflowExecutionResult);
timing fields are omitted, nodeResults is the Map as association list. -/
structure WorkflowExecutionResult where
  workflowId : String
  status : WorkflowStatus
  nodeResults : List (String × NodeExecutionResult)
  context : WorkflowContext

/-- Oracle for the effects the engine treats as external: evalExpr gives
the outcome of NodeExecutor.evaluateExpression on an expression and the
evaluation-context object; exec gives the outcome of executing an external
node (model, script, api, os command, download, vector, injection,
custom) by node id and attempt number; aborted gives the state of the
cancellation signal at each node-loop iteration. -/
structure EngineEnv where
  evalExpr : String → Value → Except String Value
  exec : String → Nat → Except String Value
  aborted : Nat → Bool

/-- JS property access current[part] on a modelled value: objects yield
their field, everything else yields undefined (array index and string
method access are not used by any modelled path). -/
def Value.get : Value → String → Option Value
  | .obj fields, k => getKey fields k
  | _, _ => none

/-- The context seen as a JS object by resolveContextPath (fields not
modelled are omitted; no claim paths into them). -/
def contextValue (ctx : WorkflowContext) : Value :=
  .obj [("data", .obj ctx.data), ("variables", .obj ctx.vars),
        ("outputs", .obj ctx.outputs)]

/-- The loop of NodeExecutor.resolveContextPath: walk the parts; if the
current value is undefined or null, the result is undefined. -/
def walkPath : Option Value → List String → Option Value
  | cur, [] => cur
  | none, _ :: _ => none
  | some .null, _ :: _ => none
  | some v, p :: ps => walkPath (v.get p) ps

/-- Splitting a character list on the dot character, accumulator of the
current segment reversed. -/
def splitDotAux : List Char → List Char → List String
  | [], acc => [String.mk acc.reverse]
  | c :: cs, acc =>
      if c = '.' then String.mk acc.reverse :: splitDotAux cs []
      else splitDotAux cs (c :: acc)

/-- The JS path.split on the dot separator, implemented structurally on
the character list so that it computes by definitional reduction; it
agrees with String.splitOn applied to a dot (empty segments and the
empty string behave as in JS). -/
def splitDot (s : String) : List String := splitDotAux s.toList []

/-- NodeExecutor.resolveContextPath: split the path on dots and walk. -/
def resolveContextPath (path : String) (ctx : WorkflowContext) : Option Value :=
  walkPath (some (contextValue ctx)) (splitDot path)

/-- JS truthiness of a modelled value (Boolean coercion). -/
def truthy : Value → Bool
  | .null => false
  | .bool b => b
  | .num n => n != 0
  | .str s => !(s.isEmpty)
  | .arr _ => true
  | .obj _ => true

/-- The evalContext object built by NodeExecutor.evaluateExpression:
an object with fields context (the data map), outputs and variables. -/
def evalContext (ctx : WorkflowContext) : Value :=
  .obj [("context", .obj ctx.data), ("outputs", .obj ctx.outputs),
        ("variables", .obj ctx.vars)]

/-- NodeExecutor.evaluateExpression: run the expression (oracle) against
the evalContext; a throw is wrapped into the fixed failure message. -/
def evaluateExpression (env : EngineEnv) (expression : String)
    (ctx : WorkflowContext) : Except String Value :=
  match env.evalExpr expression (evalContext ctx) with
  | .ok v => .ok v
  | .error _ => .error ("Failed to evaluate expression: " ++ expression)

/-- NodeExecutor.executeCondition (src/src/engine/nodeExecutor.ts lines
94 to 105): evaluate the condition expression and return the object with
fields condition, result (Boolean coercion) and branch; the branch node
lists trueBranch and falseBranch are not read and no branch node is
executed. -/
def executeCondition (env : EngineEnv) (node : NodeConfig)
    (ctx : WorkflowContext) : Except String Value :=
  match evaluateExpression env node.condition ctx with
  | .error e => .error e
  | .ok result =>
      .ok (.obj [("condition", .str node.condition),
                 ("result", .bool (truthy result)),
                 ("branch", .str (if truthy result then "true" else "false"))])

/-- The iterationContext object literal built inside
NodeExecutor.executeLoop: the context with a data map extended by the
keys given below for the current index and item (and nothing else). -/
def loopIterationContext (ctx : WorkflowContext) (i : Nat) (item : Value) :
    WorkflowContext :=
  { ctx with
      data := setKey (setKey ctx.data "$iteration" (.num (Int.ofNat i)))
                "$item" item }

/-- NodeExecutor.executeLoop (src/src/engine/nodeExecutor.ts lines 110
to 147): resolve the iteration source, require an array, iterate
min(length, maxIterations) times where a missing or zero maxIterations
defaults to the array length (JS falsy check), build the iteration
context (which the source then discards: the source comment states that
child nodes would be executed by the workflow engine and that this just
tracks the iteration) and return the iteration records. -/
def executeLoop (node : NodeConfig) (ctx : WorkflowContext) :
    Except String Value :=
  match resolveContextPath node.iterationSource ctx with
  | some (.arr iterationData) =>
      let maxIterations : Nat :=
        match node.maxIterations with
        | some m => if m = 0 then iterationData.length else m
        | none => iterationData.length
      let iterations := min iterationData.length maxIterations
      let results := (List.range iterations).map (fun i =>
        let _ictx := loopIterationContext ctx i (iterationData.getD i .null)
        Value.obj [("iteration", .num (Int.ofNat i)),
                   ("item", iterationData.getD i .null)])
      .ok (.obj [("iterations", .num (Int.ofNat results.length)),
                 ("results", .arr results)])
  | _ => .error ("Loop iteration source must be an array: " ++
      node.iterationSource)

/-- NodeExecutor.executeParallel (src/src/engine/nodeExecutor.ts lines
462 to 472): the source returns a placeholder object carrying the child
node id list and the waitForAll flag; no child node is resolved or
executed. -/
def executeParallel (node : NodeConfig) (_ctx : WorkflowContext) :
    Except String Value :=
  .ok (.obj [("childNodes", .arr (node.childNodes.map .str)),
             ("waitForAll", .bool node.waitForAll)])

/-- NodeExecutor.execute: dispatch on the node type. The condition, loop
and parallel routines are embedded above; the nested workflow routine
throws its fixed not-implemented error; all remaining types perform
external effects and are modelled by the exec oracle (their context
writes through output mappings are not modelled; no claim depends on
them). -/
def nodeExecutorExecute (env : EngineEnv) (node : NodeConfig)
    (ctx : WorkflowContext) (attempt : Nat) : Except String Value :=
  match node.type with
  | .condition => executeCondition env node ctx
  | .loop => executeLoop node ctx
  | .parallel => executeParallel node ctx
  | .nestedWorkflow => .error "Nested workflows not yet implemented"
  | _ => env.exec node.id attempt

/-- WorkflowEngine.applyOverrides: spread the overrides over the data
map of the context (sequential property assignment). -/
def applyOverrides (ctx : WorkflowContext) :
    Option (List (String × Value)) → WorkflowContext
  | none => ctx
  | some ov => { ctx with data := ov.foldl (fun d kv => setKey d kv.1 kv.2) ctx.data }

/-- WorkflowEngine.calculateBackoff. -/
def calculateBackoff (attempt initialDelay : Nat) : Backoff → Nat
  | .exponential => initialDelay * 2 ^ (attempt - 1)
  | .linear => initialDelay * attempt

/-- The effective maxAttempts of WorkflowEngine.executeNode: the JS
expression node.retryPolicy?.maxAttempts || 1 yields 1 both for a
missing policy and for a falsy (zero) maxAttempts. -/
def effectiveMaxAttempts : Option RetryPolicy → Nat
  | some p => if p.maxAttempts = 0 then 1 else p.maxAttempts
  | none => 1

/-- The while loop of WorkflowEngine.executeNode over the attempt
counter: each attempt first checks the abort flag (a set flag throws
and counts as a failed attempt), then runs the node; on success the
loop returns the attempt count and output; on a throw the error is
retained and, if attempts remain, the loop retries after a backoff
sleep (time is not modelled). Returns (attempts, output?, lastError?);
a present output means success. -/
def attemptLoop (exec : Nat → Except String Value) (aborted : Bool) :
    Nat → Nat → Option String → Nat × Option Value × Option String
  | attempts, 0, lastError => (attempts, none, lastError)
  | attempts, remaining + 1, _ =>
      let a := attempts + 1
      match (if aborted then .error "Execution aborted" else exec a) with
      | .ok v => (a, some v, none)
      | .error e => attemptLoop exec aborted a remaining (some e)

/-- WorkflowEngine.executeNode: apply the context overrides, run the
attempt loop up to the effective maxAttempts, and build the result:
success with the output on a successful attempt, failed with the last
error on exhaustion. Timeout racing is not modelled (no claim touches
it). -/
def executeNode (env : EngineEnv) (node : NodeConfig) (ctx : WorkflowContext)
    (aborted : Bool) : NodeExecutionResult :=
  let nodeContext := applyOverrides ctx node.overrides
  let maxAttempts := effectiveMaxAttempts node.retryPolicy
  match attemptLoop (fun a => nodeExecutorExecute env node nodeContext a)
      aborted 0 maxAttempts none with
  | (attempts, some output, _) =>
      { nodeId := node.id, status := .success, output := some output,
        attempts := attempts }
  | (attempts, none, err) =>
      { nodeId := node.id, status := .failed, error := err,
        attempts := attempts }

/-- WorkflowEngine.checkDependencies: every declared dependency must
have a result and that result must have status success. -/
def checkDependencies (node : NodeConfig)
    (results : List (String × NodeExecutionResult)) : Bool :=
  node.dependencies.all (fun d =>
    match getKey results d with
    | some r => r.status = .success
    | none => false)

/-- Dependency graphs are association lists from an id to a list of ids
(JS Map of Sets or arrays, in insertion order). -/
abbrev Graph := List (String × List String)

/-- The adjacency list of a key of a graph; a missing key yields the
empty list (the JS fallback to an empty Set or array). -/
def neighborsOf (g : Graph) (n : String) : List String :=
  (getKey g n).getD []

/-- Fuel bound for the DFS helpers: strictly more than the number of id
occurrences in the graph, hence strictly more than the number of
distinct ids, which bounds the real recursion depth. -/
def graphFuel (g : Graph) : Nat :=
  (g.map Prod.fst).length + (g.flatMap Prod.snd).length + 1

/-- The graph built by WorkflowEngine.detectCycle: each node id mapped
to its dependency list. -/
def detectGraph (nodes : List NodeConfig) : Graph :=
  nodes.foldl (fun g nd => setKey g nd.id nd.dependencies) []

/-- WorkflowEngine.detectCycle.hasCycleUtil: mark the node visited and
push it on the recursion stack, then scan its neighbors left to right:
an unvisited neighbor is recursed into (propagating true), a visited
neighbor still on the recursion stack signals a cycle. Returns the flag
and the updated visited set. The fuel argument bounds the recursion
depth; exhausted fuel conservatively reports a cycle (unreachable for
the fuel used by detectCycle, since the stack grows on each descent and
stays inside the finite id set). -/
def hasCycleUtil (g : Graph) : Nat → List String → List String → String →
    Bool × List String
  | 0, visited, _, _ => (true, visited)
  | fuel + 1, visited, recStack, n =>
      let visited1 := if n ∈ visited then visited else n :: visited
      (neighborsOf g n).foldl (fun st nb =>
        if st.1 then st
        else if nb ∈ st.2 then
          if nb ∈ recStack ∨ nb = n then (true, st.2) else st
        else hasCycleUtil g fuel st.2 (n :: recStack) nb)
        (false, visited1)

/-- WorkflowEngine.detectCycle: run hasCycleUtil from every not yet
visited key of the graph, threading the visited set; true as soon as one
start reports a cycle. -/
def detectCycle (nodes : List NodeConfig) : Bool :=
  let g := detectGraph nodes
  ((g.map Prod.fst).foldl (fun st k =>
    if st.1 then st
    else if k ∈ st.2 then st
    else hasCycleUtil g (graphFuel g) st.2 [] k)
    (false, [])).1

/-- The first loop of WorkflowEngine.validateWorkflow: return the first
node id already seen (a duplicate), if any. -/
def findDuplicate : List NodeConfig → List String → Option String
  | [], _ => none
  | nd :: rest, seen =>
      if nd.id ∈ seen then some nd.id else findDuplicate rest (nd.id :: seen)

/-- The second loop of WorkflowEngine.validateWorkflow: return the first
(node id, dependency id) pair whose dependency is not a declared node. -/
def findDangling (ids : List String) : List NodeConfig →
    Option (String × String)
  | [] => none
  | nd :: rest =>
      match nd.dependencies.find? (fun d => decide (d ∉ ids)) with
      | some d => some (nd.id, d)
      | none => findDangling ids rest

/-- WorkflowEngine.validateWorkflow: duplicate ids, dangling
dependencies, cycles, invalid entry nodes, in this order, each raising
its distinct error. -/
def validateWorkflow (w : WorkflowDefinition) : Except String Unit :=
  match findDuplicate w.nodes [] with
  | some i => .error ("Duplicate node ID: " ++ i)
  | none =>
    let ids := w.nodes.map (fun nd => nd.id)
    match findDangling ids w.nodes with
    | some p => .error ("Node " ++ p.1 ++ " has invalid dependency: " ++ p.2)
    | none =>
      if detectCycle w.nodes then
        .error "Workflow contains circular dependencies"
      else
        match w.entryNodes.find? (fun e => decide (e ∉ ids)) with
        | some e => .error ("Invalid entry node: " ++ e)
        | none => .ok ()

/-- Map.set of an empty adjacency set for a key not yet present
(buildDependencyGraph). -/
def ensureKey (g : Graph) (k : String) : Graph :=
  match getKey g k with
  | some _ => g
  | none => g ++ [(k, [])]

/-- Set.add on an adjacency list: append if not yet present. -/
def addToSet (s : List String) (x : String) : List String :=
  if x ∈ s then s else s ++ [x]

/-- Apply a function to the adjacency list of each entry of a key
(JS mutates the Set stored under the key in place). -/
def updateKey : Graph → String → (List String → List String) → Graph
  | [], _, _ => []
  | (k0, v) :: rest, k, f =>
      if k0 = k then (k0, f v) :: updateKey rest k f
      else (k0, v) :: updateKey rest k f

/-- graph.get(depId).add(node.id) of buildDependencyGraph. -/
def addEdge (g : Graph) (k x : String) : Graph :=
  updateKey g k (fun s => addToSet s x)

/-- The body of the node loop of WorkflowEngine.buildDependencyGraph:
ensure the node id is a key, then for each dependency ensure the
dependency is a key and add the node id to its adjacency set. -/
def buildStep (g : Graph) (nd : NodeConfig) : Graph :=
  nd.dependencies.foldl (fun g d => addEdge (ensureKey g d) d nd.id)
    (ensureKey g nd.id)

/-- WorkflowEngine.buildDependencyGraph: edges point from a dependency
to its dependents. -/
def buildDependencyGraph (nodes : List NodeConfig) : Graph :=
  nodes.foldl buildStep []

/-- WorkflowEngine.topologicalSort.visit: a node on the temp mark set
throws the circular dependency error, a visited node returns; otherwise
the node is temp marked, all its neighbors are visited in order, the
temp mark is dropped and the node is marked visited and pushed on the
result. State is (visited, result); fuel bounds the recursion depth as
in hasCycleUtil, with the same error on exhaustion (unreachable for the
fuel passed by topologicalSort). -/
def topoVisit (g : Graph) : Nat → List String → List String × List String →
    String → Except String (List String × List String)
  | 0, _, _, _ => .error "Circular dependency detected"
  | fuel + 1, temp, st, n =>
      if n ∈ temp then .error "Circular dependency detected"
      else if n ∈ st.1 then .ok st
      else
        match (neighborsOf g n).foldlM
            (fun st2 nb => topoVisit g fuel (n :: temp) st2 nb) st with
        | .error e => .error e
        | .ok st1 => .ok (n :: st1.1, st1.2 ++ [n])

/-- The key loop of WorkflowEngine.topologicalSort: visit every not yet
visited key of the graph in insertion order. -/
def topoLoop (g : Graph) (fuel : Nat) : List String →
    List String × List String → Except String (List String × List String)
  | [], st => .ok st
  | k :: rest, st =>
      if k ∈ st.1 then topoLoop g fuel rest st
      else
        match topoVisit g fuel [] st k with
        | .error e => .error e
        | .ok st1 => topoLoop g fuel rest st1

/-- WorkflowEngine.topologicalSort: DFS post order over the dependents
graph, reversed. -/
def topologicalSort (g : Graph) : Except String (List String) :=
  match topoLoop g (graphFuel g) (g.map Prod.fst) ([], []) with
  | .error e => .error e
  | .ok st => .ok st.2.reverse

/-- The skipped result entry written by the node loop of
WorkflowEngine.executeWorkflow when dependencies are not met. -/
def skippedResult (nid : String) : NodeExecutionResult :=
  { nodeId := nid, status := .skipped, attempts := 0 }

/-- Mutable state of the node loop of executeWorkflow: the shared
context, the nodeResults map and the running overall status. -/
structure RunState where
  ctx : WorkflowContext
  results : List (String × NodeExecutionResult)
  status : WorkflowStatus

/-- The node loop of WorkflowEngine.executeWorkflow over the computed
execution order (the Nat argument is the loop iteration index used to
sample the cancellation signal): a set signal sets the overall status to
the interrupted status and breaks without touching the results; an
unknown id is skipped over; unmet dependencies record a skipped entry;
otherwise the node is executed, its result recorded, a present output
written to the outputs map of the context, and a failed result turns the
overall status to failed while the loop continues. -/
def runNodes (env : EngineEnv) (w : WorkflowDefinition) :
    List String → Nat → RunState → RunState
  | [], _, st => st
  | nid :: rest, i, st =>
      if env.aborted i then { st with status := .interrupted }
      else
        match w.nodes.find? (fun n => decide (n.id = nid)) with
        | none => runNodes env w rest (i + 1) st
        | some node =>
          if checkDependencies node st.results then
            let r := executeNode env node st.ctx (env.aborted i)
            let ctx1 :=
              match r.output with
              | some out => { st.ctx with outputs := setKey st.ctx.outputs nid out }
              | none => st.ctx
            runNodes env w rest (i + 1)
              { ctx := ctx1, results := setKey st.results nid r,
                status := if r.status = .failed then .failed else st.status }
          else
            runNodes env w rest (i + 1)
              { st with results := setKey st.results nid (skippedResult nid) }

/-- The sequence of throwing steps inside the try block of
executeWorkflow: validation, then graph build and topological sort. -/
def validateAndSort (w : WorkflowDefinition) : Except String (List String) :=
  match validateWorkflow w with
  | .error e => .error e
  | .ok _ => topologicalSort (buildDependencyGraph w.nodes)

/-- The execution context built at the start of executeWorkflow from
the initial data. -/
def initialContextOf (initial : List (String × Value)) : WorkflowContext :=
  { data := initial, vars := [], outputs := [] }

/-- The initial node loop state of executeWorkflow: the fresh context,
no node results, overall status success. -/
def initialRunState (initial : List (String × Value)) : RunState :=
  { ctx := initialContextOf initial, results := [], status := .success }

/-- WorkflowEngine.executeWorkflow, continued: on a validation or
ordering throw the catch block sets the failed status and the empty
result map and context are returned; otherwise the node loop runs. -/
def executeWorkflow (env : EngineEnv) (w : WorkflowDefinition)
    (initial : List (String × Value)) : WorkflowExecutionResult :=
  match validateAndSort w with
  | .error _ =>
      { workflowId := w.id, status := .failed, nodeResults := [],
        context := initialContextOf initial }
  | .ok order =>
      let fin := runNodes env w order 0 (initialRunState initial)
      { workflowId := w.id, status := fin.status, nodeResults := fin.results,
        context := fin.ctx }

/-- Ordering property of the DFS push list: every pushed node was pushed
after all of its graph neighbors (its dependents), which appear at
strictly smaller indices. -/
def EdgesBefore (g : Graph) (res : List String) : Prop :=
  ∀ u, u ∈ res → ∀ v, v ∈ neighborsOf g u →
    v ∈ res ∧ res.indexOf v < res.indexOf u

/-- Invariant of the topological sort state (visited set, push list):
the list has no duplicates, the visited set and the list have the same
members, and the push list satisfies EdgesBefore. -/
def TopoInv (g : Graph) (st : List String × List String) : Prop :=
  st.2.Nodup ∧ (∀ x, x ∈ st.1 ↔ x ∈ st.2) ∧ EdgesBefore g st.2

/-- Postcondition of one DFS step from state st to state st1 under temp
marks temp: the invariant holds, the visited set only grew, the push
list only got extended at the end, and every newly visited node carries
no temp mark. -/
def TopoPost (g : Graph) (temp : List String)
    (st st1 : List String × List String) : Prop :=
  TopoInv g st1 ∧ (∀ x ∈ st.1, x ∈ st1.1) ∧ (∃ ext, st1.2 = st.2 ++ ext) ∧
  (∀ x ∈ st1.1, x ∈ st.1 ∨ x ∉ temp)

/-- The dependency relation declared by a node list: DependsOn nodes x y
holds when some listed node has id x and lists y among its
dependencies. -/
def DependsOn (nodes : List NodeConfig) (x y : String) : Prop :=
  ∃ nd, nd ∈ nodes ∧ nd.id = x ∧ y ∈ nd.dependencies

/-- A dependency cycle: some id reaches itself through one or more
DependsOn steps. -/
def HasDependencyCycle (nodes : List NodeConfig) : Prop :=
  ∃ n, Relation.TransGen (DependsOn nodes) n n

/-! Concrete fixtures used by witnesses and counterexamples. -/

/-- A plain script node with id a and no dependencies. -/
def nodeA : NodeConfig := { id := "a", type := .script }

/-- A plain script node with id b and no dependencies. -/
def nodeB : NodeConfig := { id := "b", type := .script }

/-- A script node with id c depending on a. -/
def nodeC : NodeConfig := { id := "c", type := .script, dependencies := ["a"] }

/-- A script node with id b depending on a. -/
def nodeBdepA : NodeConfig :=
  { id := "b", type := .script, dependencies := ["a"] }

/-- An environment in which every external execution succeeds with null
and the signal is never set. -/
def envOk : EngineEnv where
  evalExpr := fun _ _ => .ok (.bool true)
  exec := fun _ _ => .ok .null
  aborted := fun _ => false

/-- An environment in which the cancellation signal is already set at
every iteration. -/
def envAborted : EngineEnv where
  evalExpr := fun _ _ => .ok .null
  exec := fun _ _ => .ok .null
  aborted := fun _ => true

/-- An environment in which node a always throws and every other external
execution succeeds. -/
def envFailA : EngineEnv where
  evalExpr := fun _ _ => .ok .null
  exec := fun i _ => if i = "a" then .error "boom" else .ok .null
  aborted := fun _ => false

/-- An environment in which node child always throws, expressions
evaluate to true and every other external execution succeeds. -/
def envFailChild : EngineEnv where
  evalExpr := fun _ _ => .ok (.bool true)
  exec := fun i _ => if i = "child" then .error "child failed" else .ok .null
  aborted := fun _ => false

/-- An environment in which every external execution throws, with the
attempt number in the message. -/
def envAlwaysFail : EngineEnv where
  evalExpr := fun _ _ => .ok .null
  exec := fun _ a => .error ("boom" ++ toString a)
  aborted := fun _ => false

/-- Workflow with nodes a, b, c declared in this order, where only c
depends on a: a and b have no ordering constraint. -/
def wfThree : WorkflowDefinition :=
  { id := "w-three", nodes := [nodeA, nodeB, nodeC], entryNodes := ["a"] }

/-- Workflow with two nodes forming a dependency cycle. -/
def wfCycle : WorkflowDefinition :=
  { id := "w-cycle",
    nodes := [{ id := "a", type := .script, dependencies := ["b"] },
              { id := "b", type := .script, dependencies := ["a"] }],
    entryNodes := ["a"] }

/-- Workflow with two nodes sharing the id node-1 (the failing input of
the validation test of the repository test suite). -/
def wfDup : WorkflowDefinition :=
  { id := "w-dup",
    nodes := [{ id := "node-1", type := .script },
              { id := "node-1", type := .script }],
    entryNodes := ["node-1"] }

/-- A condition node whose trueBranch lists the node child. -/
def wfCondNode : NodeConfig :=
  { id := "cond", type := .condition, condition := "true",
    trueBranch := ["child"] }

/-- Workflow containing the condition node and its branch child. -/
def wfCond : WorkflowDefinition :=
  { id := "w-cond",
    nodes := [wfCondNode, { id := "child", type := .script }],
    entryNodes := ["cond"] }

/-- Workflow in which b depends on a (cascade scenario). -/
def wfChain : WorkflowDefinition :=
  { id := "w-chain", nodes := [nodeA, nodeBdepA], entryNodes := ["a"] }

/-- A loop node over the path data.items with one listed child node. -/
def wfLoopNode : NodeConfig :=
  { id := "lp", type := .loop, iterationSource := "data.items",
    childNodes := ["c"] }

/-- A context whose data holds the array [10, 20] under items. -/
def wfLoopCtx : WorkflowContext :=
  { data := [("items", .arr [.num 10, .num 20])] }

/-- A parallel node with two children and waitForAll set. -/
def wfParNode : NodeConfig :=
  { id := "par", type := .parallel, childNodes := ["x", "y"],
    waitForAll := true }

/-- A node with a retry policy of three attempts. -/
def wfRetryNode : NodeConfig :=
  { id := "r", type := .script, retryPolicy := some { maxAttempts := 3 } }

/-- A node with a retry policy whose maxAttempts is zero. -/
def wfZeroRetryNode : NodeConfig :=
  { id := "z", type := .script, retryPolicy := some { maxAttempts := 0 } }

end VSCWorkflow
namespace VSCWorkflow

theorem getKey_setKey_self {α : Type} (m : List (String × α)) (k : String) (v : α) :
    getKey (setKey m k v) k = some v := by
  induction m with
  | nil => simp [setKey, getKey]
  | cons p rest ih =>
      by_cases h : p.1 = k
      · simp [setKey, getKey, h]
      · simp [setKey, getKey, h, ih]

theorem getKey_setKey_ne {α : Type} (m : List (String × α)) (k k0 : String) (v : α)
    (h : k ≠ k0) : getKey (setKey m k v) k0 = getKey m k0 := by
  induction m with
  | nil => simp [setKey, getKey, h]
  | cons p rest ih =>
      by_cases h1 : p.1 = k
      · simp [setKey, getKey, h1, h]
      · by_cases h2 : p.1 = k0 <;> simp [setKey, getKey, h1, h2, ih, Ne.symm h]

end VSCWorkflow

namespace VSCWorkflow

theorem topoPost_refl (g : Graph) (temp : List String)
    (st : List String × List String) (h : TopoInv g st) : TopoPost g temp st st :=
  ⟨h, fun _ hx => hx, ⟨[], by simp⟩, fun _ hx => Or.inl hx⟩

theorem topoPost_trans (g : Graph) (temp : List String)
    (st st1 st2 : List String × List String)
    (h1 : TopoPost g temp st st1) (h2 : TopoPost g temp st1 st2) :
    TopoPost g temp st st2 := by
  obtain ⟨_, m1, ⟨e1, he1⟩, f1⟩ := h1
  obtain ⟨i2, m2, ⟨e2, he2⟩, f2⟩ := h2
  refine ⟨i2, fun x hx => m2 x (m1 x hx), ⟨e1 ++ e2, by simp [he2, he1]⟩, ?_⟩
  intro x hx
  rcases f2 x hx with h | h
  · exact f1 x h
  · exact Or.inr h

theorem topo_push (g : Graph) (temp : List String)
    (st stf : List String × List String) (n : String)
    (hnt : n ∉ temp) (hnv : n ∉ st.1)
    (hpost : TopoPost g (n :: temp) st stf)
    (hnb : ∀ x ∈ neighborsOf g n, x ∈ stf.1) :
    TopoPost g temp st (n :: stf.1, stf.2 ++ [n]) := by
  obtain ⟨⟨hnd, hiff, hedges⟩, hmono, ⟨ext, hext⟩, hfresh⟩ := hpost
  have hn_stf : n ∉ stf.1 := by
    intro hmem
    rcases hfresh n hmem with h | h
    · exact hnv h
    · exact h (List.mem_cons_self n temp)
  have hn_res : n ∉ stf.2 := fun h => hn_stf ((hiff n).mpr h)
  refine ⟨⟨?_, ?_, ?_⟩, ?_, ?_, ?_⟩
  · exact List.nodup_append.mpr ⟨hnd, List.nodup_singleton n,
      fun x hx hx2 => hn_res (by rwa [List.mem_singleton.mp hx2] at hx)⟩
  · intro x
    constructor
    · intro hx
      rcases List.mem_cons.mp hx with rfl | hx
      · exact List.mem_append_right _ (List.mem_singleton_self x)
      · exact List.mem_append_left _ ((hiff x).mp hx)
    · intro hx
      rcases List.mem_append.mp hx with hx | hx
      · exact List.mem_cons_of_mem n ((hiff x).mpr hx)
      · rw [List.mem_singleton.mp hx]; exact List.mem_cons_self n stf.1
  · intro u hu v hv
    rcases List.mem_append.mp hu with hu2 | hu2
    · obtain ⟨hv2, hlt⟩ := hedges u hu2 v hv
      refine ⟨List.mem_append_left _ hv2, ?_⟩
      rw [List.indexOf_append_of_mem hv2, List.indexOf_append_of_mem hu2]
      exact hlt
    · rw [List.mem_singleton.mp hu2] at hv ⊢
      have hv1 : v ∈ stf.2 := (hiff v).mp (hnb v hv)
      refine ⟨List.mem_append_left _ hv1, ?_⟩
      rw [List.indexOf_append_of_mem hv1, List.indexOf_append_of_not_mem hn_res]
      simp [List.indexOf_cons_self]
      exact List.indexOf_lt_length.mpr hv1
  · intro x hx
    exact List.mem_cons_of_mem n (hmono x hx)
  · exact ⟨ext ++ [n], by simp [hext]⟩
  · intro x hx
    rcases List.mem_cons.mp hx with rfl | hx
    · exact Or.inr hnt
    · rcases hfresh x hx with h | h
      · exact Or.inl h
      · exact Or.inr (fun hxt => h (List.mem_cons_of_mem n hxt))

theorem topo_post (fuel : Nat) :
    ∀ (g : Graph) (temp : List String) (st : List String × List String)
      (n : String) (st1 : List String × List String),
      TopoInv g st → topoVisit g fuel temp st n = .ok st1 →
      TopoPost g temp st st1 ∧ n ∈ st1.1 := by
  induction fuel with
  | zero =>
      intro g temp st n st1 _ h
      simp [topoVisit] at h
  | succ fuel ih =>
      have hfold : ∀ (g : Graph) (temp : List String) (ns : List String)
          (st stf : List String × List String), TopoInv g st →
          ns.foldlM (fun st2 nb => topoVisit g fuel temp st2 nb) st = .ok stf →
          TopoPost g temp st stf ∧ ∀ x ∈ ns, x ∈ stf.1 := by
        intro g temp ns
        induction ns with
        | nil =>
            intro st stf hInv h
            simp only [List.foldlM_nil, pure, Except.pure, Except.ok.injEq] at h
            subst h
            exact ⟨topoPost_refl g temp st hInv, by simp⟩
        | cons nb rest ihns =>
            intro st stf hInv h
            rw [List.foldlM_cons] at h
            rcases hv : topoVisit g fuel temp st nb with e | stm
            · rw [hv] at h
              simp only [bind, Except.bind] at h
              exact Except.noConfusion h
            · rw [hv] at h
              simp only [bind, Except.bind] at h
              obtain ⟨post1, hnb⟩ := ih g temp st nb stm hInv hv
              obtain ⟨post2, hrest⟩ := ihns stm stf post1.1 h
              refine ⟨topoPost_trans g temp st stm stf post1 post2, ?_⟩
              intro x hx
              rcases List.mem_cons.mp hx with rfl | hx
              · exact post2.2.1 x hnb
              · exact hrest x hx
      intro g temp st n st1 hInv h
      rw [topoVisit] at h
      by_cases ht : n ∈ temp
      · simp [ht] at h
      · by_cases hv : n ∈ st.1
        · simp only [ht, hv, if_true, if_false, Except.ok.injEq] at h
          subst h
          exact ⟨topoPost_refl g temp st hInv, hv⟩
        · simp only [ht, hv, if_true, if_false] at h
          rcases hf : (neighborsOf g n).foldlM
              (fun st2 nb => topoVisit g fuel (n :: temp) st2 nb) st with e | stm
          · rw [hf] at h
            exact Except.noConfusion h
          · rw [hf] at h
            simp only [Except.ok.injEq] at h
            subst h
            obtain ⟨post1, hnb⟩ := hfold g (n :: temp) (neighborsOf g n) st stm hInv hf
            refine ⟨topo_push g temp st stm n ht hv post1 hnb, ?_⟩
            exact List.mem_cons_self n stm.1

end VSCWorkflow

namespace VSCWorkflow

theorem topoLoop_post (g : Graph) (fuel : Nat) :
    ∀ (ks : List String) (st stf : List String × List String),
      TopoInv g st → topoLoop g fuel ks st = .ok stf →
      TopoInv g stf ∧ (∀ x ∈ st.1, x ∈ stf.1) ∧ (∀ k ∈ ks, k ∈ stf.1) := by
  intro ks
  induction ks with
  | nil =>
      intro st stf hInv h
      simp only [topoLoop, Except.ok.injEq] at h
      subst h
      exact ⟨hInv, fun _ hx => hx, by simp⟩
  | cons k rest ihks =>
      intro st stf hInv h
      rw [topoLoop] at h
      by_cases hk : k ∈ st.1
      · simp only [hk, if_true] at h
        obtain ⟨hi, hm, hks⟩ := ihks st stf hInv h
        refine ⟨hi, hm, ?_⟩
        intro x hx
        rcases List.mem_cons.mp hx with rfl | hx
        · exact hm x hk
        · exact hks x hx
      · simp only [hk, if_false] at h
        rcases hvis : topoVisit g fuel [] st k with e | stm
        · rw [hvis] at h
          exact Except.noConfusion h
        · rw [hvis] at h
          obtain ⟨⟨hi1, hm1, _, _⟩, hk1⟩ := topo_post fuel g [] st k stm hInv hvis
          obtain ⟨hi, hm, hks⟩ := ihks stm stf hi1 h
          refine ⟨hi, fun x hx => hm x (hm1 x hx), ?_⟩
          intro x hx
          rcases List.mem_cons.mp hx with rfl | hx
          · exact hm x hk1
          · exact hks x hx

theorem topologicalSort_spec (g : Graph) (order : List String)
    (h : topologicalSort g = .ok order) :
    ∃ res, order = res.reverse ∧ res.Nodup ∧
      (∀ k ∈ g.map Prod.fst, k ∈ res) ∧ EdgesBefore g res := by
  rw [topologicalSort] at h
  rcases hl : topoLoop g (graphFuel g) (g.map Prod.fst) ([], []) with e | stf
  · rw [hl] at h
    exact Except.noConfusion h
  · rw [hl] at h
    simp only [Except.ok.injEq] at h
    subst h
    have hInv0 : TopoInv g ([], []) := by
      refine ⟨List.nodup_nil, by simp, ?_⟩
      intro u hu
      simp at hu
    obtain ⟨⟨hnd, hiff, hedges⟩, _, hkeys⟩ :=
      topoLoop_post g (graphFuel g) (g.map Prod.fst) ([], []) stf hInv0 hl
    exact ⟨stf.2, rfl, hnd, fun k hk => (hiff k).mp (hkeys k hk), hedges⟩

theorem indexOf_reverse_flip :
    ∀ (l : List String), l.Nodup → ∀ a b, a ∈ l → b ∈ l →
      l.indexOf a < l.indexOf b → l.reverse.indexOf b < l.reverse.indexOf a := by
  intro l
  induction l with
  | nil => intro _ a b ha; simp at ha
  | cons x t iht =>
      intro hnd a b ha hb hlt
      have hndt : t.Nodup := (List.nodup_cons.mp hnd).2
      have hxt : x ∉ t := (List.nodup_cons.mp hnd).1
      by_cases hbx : b = x
      · subst hbx
        rw [List.indexOf_cons_self] at hlt
        omega
      · by_cases hax : a = x
        · subst hax
          have hbt : b ∈ t := by
            rcases List.mem_cons.mp hb with h | h
            · exact absurd h.symm (Ne.symm hbx)
            · exact h
          have hbrev : b ∈ t.reverse := List.mem_reverse.mpr hbt
          have harevnot : a ∉ t.reverse := fun h => hxt (List.mem_reverse.mp h)
          simp only [List.reverse_cons]
          rw [List.indexOf_append_of_mem hbrev,
            List.indexOf_append_of_not_mem harevnot, List.indexOf_cons_self]
          have := List.indexOf_lt_length.mpr hbrev
          omega
        · have hat : a ∈ t := by
            rcases List.mem_cons.mp ha with h | h
            · exact absurd h hax
            · exact h
          have hbt : b ∈ t := by
            rcases List.mem_cons.mp hb with h | h
            · exact absurd h hbx
            · exact h
          have h1 : List.indexOf a (x :: t) = Nat.succ (List.indexOf a t) :=
            List.indexOf_cons_ne t (fun h => hax h.symm)
          have h2 : List.indexOf b (x :: t) = Nat.succ (List.indexOf b t) :=
            List.indexOf_cons_ne t (fun h => hbx h.symm)
          rw [h1, h2] at hlt
          have hlt2 : t.indexOf a < t.indexOf b := by omega
          have := iht hndt a b hat hbt hlt2
          simp only [List.reverse_cons]
          rw [List.indexOf_append_of_mem (List.mem_reverse.mpr hbt),
            List.indexOf_append_of_mem (List.mem_reverse.mpr hat)]
          exact this

end VSCWorkflow

namespace VSCWorkflow

theorem mem_keys_iff_hasKey (g : Graph) (k : String) :
    k ∈ g.map Prod.fst ↔ ∃ l, getKey g k = some l := by
  induction g with
  | nil => simp [getKey]
  | cons p rest ih =>
      by_cases h : p.1 = k
      · simp [getKey, h]
      · simp [getKey, h, ih, Ne.symm h]

theorem getKey_append {α : Type} (l1 l2 : List (String × α)) (k : String) :
    getKey (l1 ++ l2) k =
      match getKey l1 k with
      | some v => some v
      | none => getKey l2 k := by
  induction l1 with
  | nil => simp [getKey]
  | cons p rest ih =>
      by_cases h : p.1 = k <;> simp [getKey, h, ih]

theorem getKey_ensureKey_preserve (g : Graph) (k k1 : String) (l : List String)
    (h : getKey g k1 = some l) : getKey (ensureKey g k) k1 = some l := by
  unfold ensureKey
  rcases hk : getKey g k with _ | l2
  · rw [getKey_append, h]
  · exact h

theorem hasKey_ensureKey_self (g : Graph) (k : String) :
    ∃ l, getKey (ensureKey g k) k = some l := by
  unfold ensureKey
  rcases hk : getKey g k with _ | l2
  · rw [getKey_append, hk]
    exact ⟨[], by simp [getKey]⟩
  · exact ⟨l2, hk⟩

theorem getKey_updateKey (g : Graph) (k : String)
    (f : List String → List String) (k1 : String) :
    getKey (updateKey g k f) k1 =
      if k1 = k then (getKey g k1).map f else getKey g k1 := by
  induction g with
  | nil => simp [updateKey, getKey]
  | cons p rest ih =>
      rcases p with ⟨pk, pv⟩
      by_cases hpk : pk = k
      · by_cases hp1 : pk = k1
        · have hk1 : k1 = k := hp1.symm.trans hpk
          simp [updateKey, getKey, hpk, hp1, hk1]
        · have hk1 : ¬(k1 = k) := fun h => hp1 (hpk.trans h.symm)
          have hk2 : ¬(k = k1) := fun h => hk1 h.symm
          simp [updateKey, getKey, hpk, hp1, hk1, hk2, ih]
      · by_cases hp1 : pk = k1
        · have hk1 : ¬(k1 = k) := fun h => hpk (hp1.trans h)
          simp [updateKey, getKey, hpk, hp1, hk1]
        · simp [updateKey, getKey, hpk, hp1, ih]

theorem mem_addToSet_self (s : List String) (x : String) : x ∈ addToSet s x := by
  unfold addToSet
  by_cases h : x ∈ s <;> simp [h]

theorem mem_addToSet_preserve (s : List String) (x y : String) (h : y ∈ s) :
    y ∈ addToSet s x := by
  unfold addToSet
  by_cases hx : x ∈ s <;> simp [hx, h]

theorem nb_addEdge_preserve (g : Graph) (k x k1 y : String)
    (h : y ∈ neighborsOf g k1) : y ∈ neighborsOf (addEdge g k x) k1 := by
  unfold addEdge neighborsOf at *
  rw [getKey_updateKey]
  by_cases hk : k1 = k
  · rcases hg : getKey g k1 with _ | l
    · simp [hg] at h
    · simp [hk, hg]
      exact mem_addToSet_preserve l x y (by simpa [hg] using h)
  · simp [hk]
    exact h

theorem hasKey_addEdge_preserve (g : Graph) (k x k1 : String)
    (h : ∃ l, getKey g k1 = some l) : ∃ l, getKey (addEdge g k x) k1 = some l := by
  obtain ⟨l, hl⟩ := h
  unfold addEdge
  rw [getKey_updateKey]
  by_cases hk : k1 = k
  · refine ⟨addToSet l x, ?_⟩
    simp only [hk, if_true]
    rw [hk] at hl
    rw [hl]
    rfl
  · exact ⟨l, by simp [hk, hl]⟩

theorem nb_addEdge_self (g : Graph) (k x : String)
    (h : ∃ l, getKey g k = some l) : x ∈ neighborsOf (addEdge g k x) k := by
  obtain ⟨l, hl⟩ := h
  unfold addEdge neighborsOf
  rw [getKey_updateKey]
  simp [hl]
  exact mem_addToSet_self l x

end VSCWorkflow

namespace VSCWorkflow

theorem nb_ensureKey_preserve (g : Graph) (k k1 y : String)
    (h : y ∈ neighborsOf g k1) : y ∈ neighborsOf (ensureKey g k) k1 := by
  unfold neighborsOf at *
  rcases hg : getKey g k1 with _ | l
  · simp [hg] at h
  · rw [getKey_ensureKey_preserve g k k1 l hg]
    simpa [hg] using h

theorem hasKey_ensureKey_preserve (g : Graph) (k k1 : String)
    (h : ∃ l, getKey g k1 = some l) :
    ∃ l, getKey (ensureKey g k) k1 = some l := by
  obtain ⟨l, hl⟩ := h
  exact ⟨l, getKey_ensureKey_preserve g k k1 l hl⟩

theorem depFold_preserve_hasKey (nid : String) (l : List String) :
    ∀ (g : Graph) (k : String), (∃ s, getKey g k = some s) →
      ∃ s, getKey (l.foldl (fun g d => addEdge (ensureKey g d) d nid) g) k = some s := by
  induction l with
  | nil => intro g k h; exact h
  | cons d rest ih =>
      intro g k h
      rw [List.foldl_cons]
      exact ih _ k (hasKey_addEdge_preserve _ d nid k (hasKey_ensureKey_preserve g d k h))

theorem depFold_preserve_nb (nid : String) (l : List String) :
    ∀ (g : Graph) (k y : String), y ∈ neighborsOf g k →
      y ∈ neighborsOf (l.foldl (fun g d => addEdge (ensureKey g d) d nid) g) k := by
  induction l with
  | nil => intro g k y h; exact h
  | cons d rest ih =>
      intro g k y h
      rw [List.foldl_cons]
      exact ih _ k y (nb_addEdge_preserve _ d nid k y (nb_ensureKey_preserve g d k y h))

theorem depFold_mem (nid : String) (l : List String) :
    ∀ (g : Graph) (d : String), d ∈ l →
      (∃ s, getKey (l.foldl (fun g d => addEdge (ensureKey g d) d nid) g) d = some s) ∧
      nid ∈ neighborsOf (l.foldl (fun g d => addEdge (ensureKey g d) d nid) g) d := by
  induction l with
  | nil => intro g d h; simp at h
  | cons d0 rest ih =>
      intro g d h
      rw [List.foldl_cons]
      rcases List.mem_cons.mp h with rfl | h
      · constructor
        · exact depFold_preserve_hasKey nid rest _ d
            (hasKey_addEdge_preserve _ d nid d (hasKey_ensureKey_self g d))
        · exact depFold_preserve_nb nid rest _ d nid
            (nb_addEdge_self (ensureKey g d) d nid (hasKey_ensureKey_self g d))
      · exact ih _ d h

theorem buildStep_post (g : Graph) (nd : NodeConfig) :
    (∃ s, getKey (buildStep g nd) nd.id = some s) ∧
    ∀ d ∈ nd.dependencies,
      (∃ s, getKey (buildStep g nd) d = some s) ∧
      nd.id ∈ neighborsOf (buildStep g nd) d := by
  unfold buildStep
  constructor
  · exact depFold_preserve_hasKey nd.id nd.dependencies (ensureKey g nd.id) nd.id
      (hasKey_ensureKey_self g nd.id)
  · intro d hd
    exact depFold_mem nd.id nd.dependencies (ensureKey g nd.id) d hd

theorem buildStep_preserve_hasKey (g : Graph) (nd : NodeConfig) (k : String)
    (h : ∃ s, getKey g k = some s) : ∃ s, getKey (buildStep g nd) k = some s := by
  unfold buildStep
  exact depFold_preserve_hasKey nd.id nd.dependencies (ensureKey g nd.id) k
    (hasKey_ensureKey_preserve g nd.id k h)

theorem buildStep_preserve_nb (g : Graph) (nd : NodeConfig) (k y : String)
    (h : y ∈ neighborsOf g k) : y ∈ neighborsOf (buildStep g nd) k := by
  unfold buildStep
  exact depFold_preserve_nb nd.id nd.dependencies (ensureKey g nd.id) k y
    (nb_ensureKey_preserve g nd.id k y h)

theorem nodesFold_preserve (nodes : List NodeConfig) :
    ∀ (g : Graph) (k : String),
      ((∃ s, getKey g k = some s) →
        ∃ s, getKey (nodes.foldl buildStep g) k = some s) ∧
      (∀ y, y ∈ neighborsOf g k → y ∈ neighborsOf (nodes.foldl buildStep g) k) := by
  induction nodes with
  | nil => intro g k; exact ⟨fun h => h, fun _ h => h⟩
  | cons nd rest ih =>
      intro g k
      rw [List.foldl_cons]
      constructor
      · intro h
        exact (ih (buildStep g nd) k).1 (buildStep_preserve_hasKey g nd k h)
      · intro y h
        exact (ih (buildStep g nd) k).2 y (buildStep_preserve_nb g nd k y h)

theorem nodesFold_mem (nodes : List NodeConfig) :
    ∀ (g : Graph) (nd : NodeConfig), nd ∈ nodes →
      (∃ s, getKey (nodes.foldl buildStep g) nd.id = some s) ∧
      ∀ d ∈ nd.dependencies,
        (∃ s, getKey (nodes.foldl buildStep g) d = some s) ∧
        nd.id ∈ neighborsOf (nodes.foldl buildStep g) d := by
  induction nodes with
  | nil => intro g nd h; simp at h
  | cons nd0 rest ih =>
      intro g nd h
      rw [List.foldl_cons]
      rcases List.mem_cons.mp h with rfl | h
      · obtain ⟨hk, hdeps⟩ := buildStep_post g nd
        constructor
        · exact (nodesFold_preserve rest (buildStep g nd) nd.id).1 hk
        · intro d hd
          obtain ⟨hdk, hnb⟩ := hdeps d hd
          exact ⟨(nodesFold_preserve rest (buildStep g nd) d).1 hdk,
            (nodesFold_preserve rest (buildStep g nd) d).2 nd.id hnb⟩
      · exact ih (buildStep g nd0) nd h

theorem buildGraph_node_key (nodes : List NodeConfig) (nd : NodeConfig)
    (h : nd ∈ nodes) :
    ∃ s, getKey (buildDependencyGraph nodes) nd.id = some s :=
  (nodesFold_mem nodes [] nd h).1

theorem buildGraph_dep (nodes : List NodeConfig) (nd : NodeConfig) (d : String)
    (h : nd ∈ nodes) (hd : d ∈ nd.dependencies) :
    (∃ s, getKey (buildDependencyGraph nodes) d = some s) ∧
    nd.id ∈ neighborsOf (buildDependencyGraph nodes) d :=
  (nodesFold_mem nodes [] nd h).2 d hd

end VSCWorkflow

namespace VSCWorkflow

theorem dependsOn_indexOf (nodes : List NodeConfig) (res : List String)
    (hkeys : ∀ k ∈ (buildDependencyGraph nodes).map Prod.fst, k ∈ res)
    (hedges : EdgesBefore (buildDependencyGraph nodes) res) :
    ∀ x y, DependsOn nodes x y →
      x ∈ res ∧ y ∈ res ∧ res.indexOf x < res.indexOf y := by
  intro x y hdep
  obtain ⟨nd, hnd, hid, hy⟩ := hdep
  obtain ⟨hkey_y, hnb⟩ := buildGraph_dep nodes nd y hnd hy
  have hy_res : y ∈ res :=
    hkeys y ((mem_keys_iff_hasKey _ y).mpr hkey_y)
  obtain ⟨hx_res, hlt⟩ := hedges y hy_res nd.id hnb
  subst hid
  exact ⟨hx_res, hy_res, hlt⟩

theorem sortedOrder_no_cycle (nodes : List NodeConfig) (order : List String)
    (h : topologicalSort (buildDependencyGraph nodes) = .ok order) :
    ¬ HasDependencyCycle nodes := by
  obtain ⟨res, _, _, hkeys, hedges⟩ := topologicalSort_spec _ order h
  rintro ⟨n, hcyc⟩
  have hmono : ∀ a b, Relation.TransGen (DependsOn nodes) a b →
      res.indexOf a < res.indexOf b := by
    intro a b hab
    induction hab with
    | single hstep => exact (dependsOn_indexOf nodes res hkeys hedges _ _ hstep).2.2
    | tail _ hstep ih =>
        exact Nat.lt_trans ih (dependsOn_indexOf nodes res hkeys hedges _ _ hstep).2.2
  exact Nat.lt_irrefl _ (hmono n n hcyc)

theorem topologicalSort_ordered (g : Graph) (order : List String)
    (h : topologicalSort g = .ok order) :
    ∀ u, u ∈ g.map Prod.fst → ∀ v, v ∈ neighborsOf g u →
      u ∈ order ∧ v ∈ order ∧ order.indexOf u < order.indexOf v := by
  obtain ⟨res, rfl, hnodup, hkeys, hedges⟩ := topologicalSort_spec g order h
  intro u hu v hv
  have hu_res : u ∈ res := hkeys u hu
  obtain ⟨hv_res, hlt⟩ := hedges u hu_res v hv
  refine ⟨List.mem_reverse.mpr hu_res, List.mem_reverse.mpr hv_res, ?_⟩
  exact indexOf_reverse_flip res hnodup v u hv_res hu_res hlt

end VSCWorkflow

namespace VSCWorkflow

theorem checkDependencies_mem (node : NodeConfig)
    (results : List (String × NodeExecutionResult))
    (h : checkDependencies node results = true) (d : String)
    (hd : d ∈ node.dependencies) :
    ∃ r, getKey results d = some r ∧ r.status = .success := by
  unfold checkDependencies at h
  rw [List.all_eq_true] at h
  have hx := h d hd
  rcases hr : getKey results d with _ | r
  · rw [hr] at hx
    simp at hx
  · rw [hr] at hx
    simp at hx
    exact ⟨r, rfl, hx⟩

theorem runNodes_stable (env : EngineEnv) (w : WorkflowDefinition) :
    ∀ (order : List String) (i : Nat) (st : RunState) (k : String),
      k ∉ order →
      getKey (runNodes env w order i st).results k = getKey st.results k ∧
      getKey (runNodes env w order i st).ctx.outputs k =
        getKey st.ctx.outputs k := by
  intro order
  induction order with
  | nil => intro i st k _; exact ⟨rfl, rfl⟩
  | cons nid rest ih =>
      intro i st k hk
      have hkn : k ≠ nid := fun h => hk (h ▸ List.mem_cons_self nid rest)
      have hkr : k ∉ rest := fun h => hk (List.mem_cons_of_mem nid h)
      rw [runNodes]
      by_cases hab : env.aborted i = true
      · rw [if_pos hab]
        exact ⟨rfl, rfl⟩
      · rw [if_neg hab]
        rcases hfind : w.nodes.find? (fun n => decide (n.id = nid)) with _ | node
        · simp only [hfind]
          exact ih (i + 1) st k hkr
        · simp only [hfind]
          by_cases hdeps : checkDependencies node st.results = true
          · rw [if_pos hdeps]
            refine ⟨(ih (i + 1) _ k hkr).1.trans ?_,
              (ih (i + 1) _ k hkr).2.trans ?_⟩
            · exact getKey_setKey_ne st.results nid k _ (Ne.symm hkn)
            · rcases ho : (executeNode env node st.ctx (env.aborted i)).output
                with _ | out
              · simp only [ho]
              · simp only [ho]
                exact getKey_setKey_ne st.ctx.outputs nid k _ (Ne.symm hkn)
          · rw [if_neg hdeps]
            refine ⟨(ih (i + 1) _ k hkr).1.trans ?_, (ih (i + 1) _ k hkr).2⟩
            exact getKey_setKey_ne st.results nid k _ (Ne.symm hkn)

end VSCWorkflow

namespace VSCWorkflow

theorem runNodes_cascade (env : EngineEnv) (w : WorkflowDefinition)
    (a b : String) (nd : NodeConfig)
    (hfind : w.nodes.find? (fun n => decide (n.id = b)) = some nd)
    (hdep : a ∈ nd.dependencies) :
    ∀ (order : List String) (i : Nat) (st : RunState),
      order.Nodup →
      (∀ k, k ∈ order → getKey st.results k = none) →
      getKey st.ctx.outputs b = none →
      getKey st.results b = none →
      (getKey (runNodes env w order i st).results a = none ∨
        ∃ ra, getKey (runNodes env w order i st).results a = some ra ∧
          ra.status ≠ .success) →
      ∀ rb, getKey (runNodes env w order i st).results b = some rb →
        rb.status = .skipped ∧
        getKey (runNodes env w order i st).ctx.outputs b = none := by
  intro order
  induction order with
  | nil =>
      intro i st _ _ _ hbres _ rb hrb
      rw [runNodes] at hrb
      rw [hbres] at hrb
      exact Option.noConfusion hrb
  | cons nid rest ih =>
      intro i st hnodup hdisj hbout hbres hfin rb hrb
      have hnidrest : nid ∉ rest := (List.nodup_cons.mp hnodup).1
      have hnodup2 : rest.Nodup := (List.nodup_cons.mp hnodup).2
      rw [runNodes] at hfin hrb ⊢
      by_cases hab : env.aborted i = true
      · rw [if_pos hab] at hrb
        rw [hbres] at hrb
        exact Option.noConfusion hrb
      · rw [if_neg hab] at hfin hrb ⊢
        by_cases hnid : nid = b
        · subst hnid
          simp only [hfind] at hfin hrb ⊢
          by_cases hdeps : checkDependencies nd st.results = true
          · exfalso
            obtain ⟨ra0, hra0, hra0s⟩ :=
              checkDependencies_mem nd st.results hdeps a hdep
            have hane : a ≠ nid := by
              intro h
              rw [h, hbres] at hra0
              exact Option.noConfusion hra0
            have hanotrest : a ∉ rest := by
              intro h
              have hn := hdisj a (List.mem_cons_of_mem nid h)
              rw [hn] at hra0
              exact Option.noConfusion hra0
            rw [if_pos hdeps] at hfin
            rw [(runNodes_stable env w rest (i + 1) _ a hanotrest).1] at hfin
            have hget : getKey (setKey st.results nid
                (executeNode env nd st.ctx (env.aborted i))) a = some ra0 := by
              rw [getKey_setKey_ne st.results nid a _ (Ne.symm hane)]
              exact hra0
            simp only [hget] at hfin
            rcases hfin with hfin | ⟨ra, hra, hras⟩
            · exact Option.noConfusion hfin
            · exact hras (Option.some.inj hra ▸ hra0s)
          · rw [if_neg hdeps] at hrb ⊢
            have hstable := runNodes_stable env w rest (i + 1)
              { st with results := setKey st.results nid (skippedResult nid) }
              nid hnidrest
            rw [hstable.1, getKey_setKey_self st.results nid (skippedResult nid)]
              at hrb
            have hrbeq : rb = skippedResult nid := (Option.some.inj hrb).symm
            constructor
            · rw [hrbeq]
              rfl
            · rw [hstable.2]
              exact hbout
        · rcases hfind2 : w.nodes.find? (fun n => decide (n.id = nid))
            with _ | node
          · simp only [hfind2] at hfin hrb ⊢
            exact ih (i + 1) st hnodup2
              (fun k hk => hdisj k (List.mem_cons_of_mem nid hk))
              hbout hbres hfin rb hrb
          · simp only [hfind2] at hfin hrb ⊢
            have hbne : b ≠ nid := fun h => hnid h.symm
            by_cases hdeps : checkDependencies node st.results = true
            · rw [if_pos hdeps] at hfin hrb ⊢
              refine ih (i + 1) _ hnodup2 ?_ ?_ ?_ hfin rb hrb
              · intro k hk
                have hkne : nid ≠ k := fun h => hnidrest (h ▸ hk)
                rw [getKey_setKey_ne st.results nid k _ hkne]
                exact hdisj k (List.mem_cons_of_mem nid hk)
              · rcases ho : (executeNode env node st.ctx (env.aborted i)).output
                  with _ | out
                · simp only [ho]
                  exact hbout
                · simp only [ho]
                  rw [getKey_setKey_ne st.ctx.outputs nid b _ (Ne.symm hbne)]
                  exact hbout
              · rw [getKey_setKey_ne st.results nid b _ (Ne.symm hbne)]
                exact hbres
            · rw [if_neg hdeps] at hfin hrb ⊢
              refine ih (i + 1) _ hnodup2 ?_ ?_ ?_ hfin rb hrb
              · intro k hk
                have hkne : nid ≠ k := fun h => hnidrest (h ▸ hk)
                rw [getKey_setKey_ne st.results nid k _ hkne]
                exact hdisj k (List.mem_cons_of_mem nid hk)
              · exact hbout
              · rw [getKey_setKey_ne st.results nid b _ (Ne.symm hbne)]
                exact hbres

end VSCWorkflow

namespace VSCWorkflow

theorem validateAndSort_ok (w : WorkflowDefinition) (order : List String)
    (h : validateAndSort w = .ok order) :
    validateWorkflow w = .ok () ∧
    topologicalSort (buildDependencyGraph w.nodes) = .ok order := by
  unfold validateAndSort at h
  rcases hv : validateWorkflow w with e | u
  · rw [hv] at h
    exact Except.noConfusion h
  · rw [hv] at h
    cases u
    exact ⟨rfl, h⟩

theorem topologicalSort_nodup (g : Graph) (order : List String)
    (h : topologicalSort g = .ok order) : order.Nodup := by
  obtain ⟨res, rfl, hnd, _, _⟩ := topologicalSort_spec g order h
  exact List.nodup_reverse.mpr hnd

theorem findDuplicate_none_nodup :
    ∀ (nodes : List NodeConfig) (seen : List String),
      findDuplicate nodes seen = none →
      (nodes.map (fun nd => nd.id)).Nodup ∧ ∀ nd ∈ nodes, nd.id ∉ seen := by
  intro nodes
  induction nodes with
  | nil => intro seen _; simp
  | cons nd rest ih =>
      intro seen h
      rw [findDuplicate] at h
      by_cases hs : nd.id ∈ seen
      · rw [if_pos hs] at h
        exact Option.noConfusion h
      · rw [if_neg hs] at h
        obtain ⟨hnodup, hseen⟩ := ih (nd.id :: seen) h
        refine ⟨?_, ?_⟩
        · rw [List.map_cons, List.nodup_cons]
          refine ⟨?_, hnodup⟩
          intro hmem
          obtain ⟨m, hm, hmid⟩ := List.mem_map.mp hmem
          exact (hseen m hm) (hmid ▸ List.mem_cons_self nd.id seen)
        · intro m hm
          rcases List.mem_cons.mp hm with rfl | hm
          · exact hs
          · exact fun hx => (hseen m hm) (List.mem_cons_of_mem nd.id hx)

theorem find?_of_id_nodup :
    ∀ (nodes : List NodeConfig), (nodes.map (fun nd => nd.id)).Nodup →
      ∀ (nd : NodeConfig), nd ∈ nodes → ∀ (b : String), nd.id = b →
        nodes.find? (fun n => decide (n.id = b)) = some nd := by
  intro nodes
  induction nodes with
  | nil => intro _ nd h; simp at h
  | cons n0 rest ih =>
      intro hnodup nd hnd b hid
      rcases List.mem_cons.mp hnd with rfl | hnd2
      · rw [List.find?_cons_of_pos]
        simp [hid]
      · have hne : ¬(n0.id = b) := by
          intro h
          have : nd.id ∈ rest.map (fun nd => nd.id) :=
            List.mem_map.mpr ⟨nd, hnd2, rfl⟩
          rw [List.map_cons, List.nodup_cons] at hnodup
          exact hnodup.1 (by rw [h, ← hid] at *; exact this)
        rw [List.find?_cons_of_neg]
        · exact ih ((List.nodup_cons.mp (by rwa [List.map_cons] at hnodup)).2)
            nd hnd2 b hid
        · simp [hne]

theorem validateWorkflow_ok_nodup (w : WorkflowDefinition)
    (h : validateWorkflow w = .ok ()) :
    (w.nodes.map (fun nd => nd.id)).Nodup := by
  unfold validateWorkflow at h
  rcases hd : findDuplicate w.nodes [] with _ | i
  · exact (findDuplicate_none_nodup w.nodes [] hd).1
  · rw [hd] at h
    exact Except.noConfusion h

end VSCWorkflow

namespace VSCWorkflow

/-- C1: the claim states that executing a condition node selects the
trueBranch or falseBranch node-id list and executes each listed node in
order, a failure of any branch node failing the condition node with
that error. The code (NodeExecutor.executeCondition, nodeExecutor.ts
lines 94 to 105) only evaluates the expression and returns the
condition, result and branch fields: in workflow wfCond the condition
node cond evaluates to true and its trueBranch child always throws,
yet cond finishes with status success and the branch-free output while
child fails on its own. -/
theorem c1_condition_branches_not_executed :
    (getKey (executeWorkflow envFailChild wfCond []).nodeResults "cond").map
        (fun r => r.status) = some .success ∧
    (getKey (executeWorkflow envFailChild wfCond []).nodeResults "cond").map
        (fun r => r.output) =
      some (some (.obj [("condition", .str "true"), ("result", .bool true),
        ("branch", .str "true")])) ∧
    (getKey (executeWorkflow envFailChild wfCond []).nodeResults "child").map
        (fun r => r.status) = some .failed :=
  ⟨rfl, rfl, rfl⟩

/-- C2: the claim states that executing a parallel node launches each
child concurrently on an independently cloned context and joins the
child results. The code (NodeExecutor.executeParallel, nodeExecutor.ts
lines 462 to 472) executes no child at all: it returns only the child
id list and the waitForAll flag. -/
theorem c2_parallel_children_not_executed :
    executeParallel wfParNode {} =
      .ok (.obj [("childNodes", .arr [.str "x", .str "y"]),
                 ("waitForAll", .bool true)]) := rfl

/-- C3: the claim states that a loop node clones the context per index,
injects the iteration keys including the index and total keys, and runs
every listed child node, recording child failures per iteration. The
code (NodeExecutor.executeLoop, nodeExecutor.ts lines 110 to 147)
performs the min(length, maxIterations) iteration count but executes no
child node, and the iteration context it builds and discards holds only
the iteration and item keys. -/
theorem c3_loop_children_not_executed :
    executeLoop wfLoopNode wfLoopCtx = .ok (.obj [("iterations", .num 2),
      ("results", .arr [ .obj [("iteration", .num 0), ("item", .num 10)],
                         .obj [("iteration", .num 1), ("item", .num 20)]])]) ∧
    getKey (loopIterationContext wfLoopCtx 0 (.num 10)).data "$index" = none ∧
    getKey (loopIterationContext wfLoopCtx 0 (.num 10)).data "$total" = none :=
  ⟨rfl, rfl, rfl⟩

/-- C4: a workflow whose dependency graph has a cycle produces a result
with an empty nodeResults map and a status other than success, for any
environment and initial data: either validation throws, or the
topological sort throws, and both throws are caught before any node
runs; a successful sort is impossible for a cyclic dependency relation
because the computed order respects every edge. -/
theorem c4_cycle_rejected (env : EngineEnv) (w : WorkflowDefinition)
    (initial : List (String × Value)) (h : HasDependencyCycle w.nodes) :
    (executeWorkflow env w initial).nodeResults = [] ∧
    (executeWorkflow env w initial).status ≠ .success := by
  unfold executeWorkflow
  rcases hs : validateAndSort w with e | order
  · exact ⟨rfl, by simp⟩
  · exact absurd h (sortedOrder_no_cycle w.nodes order
      (validateAndSort_ok w order hs).2)

/-- C4 witness: the two-node cyclic workflow is rejected with no node
results and a non-success status. -/
theorem c4_witness :
    HasDependencyCycle wfCycle.nodes ∧
    ((executeWorkflow envOk wfCycle []).nodeResults = [] ∧
     (executeWorkflow envOk wfCycle []).status ≠ .success) := by
  have hc : HasDependencyCycle wfCycle.nodes := by
    have h1 : DependsOn wfCycle.nodes "a" "b" :=
      ⟨{ id := "a", type := .script, dependencies := ["b"] },
        List.mem_cons_self _ _, rfl, by decide⟩
    have h2 : DependsOn wfCycle.nodes "b" "a" :=
      ⟨{ id := "b", type := .script, dependencies := ["a"] },
        List.mem_cons_of_mem _ (List.mem_cons_self _ _), rfl, by decide⟩
    exact ⟨"a", Relation.TransGen.head h1 (Relation.TransGen.single h2)⟩
  exact ⟨hc, c4_cycle_rejected envOk wfCycle [] hc⟩

/-- C5 counterexample: in workflow wfThree the nodes are declared in
the order a, b, c and only c depends on a, so a and b have no ordering
constraint between them; the claim says such nodes keep declaration
order, but the computed execution order is b, a, c, with b strictly
before a. -/
theorem c5_counterexample :
    validateWorkflow wfThree = .ok () ∧
    topologicalSort (buildDependencyGraph wfThree.nodes) =
      .ok ["b", "a", "c"] ∧
    List.indexOf "b" ["b", "a", "c"] < List.indexOf "a" ["b", "a", "c"] :=
  ⟨rfl, rfl, by decide⟩

/-- C5 amended: for every workflow accepted by validation whose
execution order is computed, the order is a topological order of the
dependency graph: every node appears after each of its declared
dependencies. The declaration-order tie-break of the original claim
does not hold (see the counterexample). -/
theorem c5_amended_topological_order (w : WorkflowDefinition)
    (order : List String) (_hval : validateWorkflow w = .ok ())
    (hsort : topologicalSort (buildDependencyGraph w.nodes) = .ok order) :
    ∀ nd ∈ w.nodes, ∀ d ∈ nd.dependencies,
      d ∈ order ∧ nd.id ∈ order ∧
      order.indexOf d < order.indexOf nd.id := by
  intro nd hnd d hd
  obtain ⟨hkey_d, hnb⟩ := buildGraph_dep w.nodes nd d hnd hd
  have hdk : d ∈ (buildDependencyGraph w.nodes).map Prod.fst :=
    (mem_keys_iff_hasKey _ d).mpr hkey_d
  exact topologicalSort_ordered _ order hsort d hdk nd.id hnb

/-- C5 witness: the amended statement at the two-node chain workflow,
whose computed order is a then b. -/
theorem c5_witness :
    validateWorkflow wfChain = .ok () ∧
    topologicalSort (buildDependencyGraph wfChain.nodes) = .ok ["a", "b"] ∧
    ∀ nd ∈ wfChain.nodes, ∀ d ∈ nd.dependencies,
      d ∈ ["a", "b"] ∧ nd.id ∈ ["a", "b"] ∧
      List.indexOf d ["a", "b"] < List.indexOf nd.id ["a", "b"] :=
  ⟨rfl, rfl, c5_amended_topological_order wfChain ["a", "b"] rfl rfl⟩

/-- C6 counterexample: with the cancellation signal already set, the
claim requires every unrun node of wfThree to be recorded as skipped
while the status turns to the cancellation status; the code records
nothing: nodeResults stays empty. -/
theorem c6_counterexample :
    (executeWorkflow envAborted wfThree []).status = .interrupted ∧
    (executeWorkflow envAborted wfThree []).nodeResults = [] := ⟨rfl, rfl⟩

/-- C6 amended: when the cancellation signal is set at a node-loop
iteration, the loop stops at once with the cancellation status, and the
remaining unrun nodes are not recorded in nodeResults at all (no
skipped entries are written for them): the state is returned unchanged
except for the status. -/
theorem c6_amended_abort_stops_loop (env : EngineEnv)
    (w : WorkflowDefinition) (nid : String) (rest : List String) (i : Nat)
    (st : RunState) (h : env.aborted i = true) :
    runNodes env w (nid :: rest) i st = { st with status := .interrupted } := by
  rw [runNodes, if_pos h]

/-- C6 witness: the amended statement at the concrete aborted run. -/
theorem c6_witness :
    envAborted.aborted 0 = true ∧
    runNodes envAborted wfThree ["b", "a", "c"] 0 (initialRunState []) =
      { initialRunState [] with status := .interrupted } :=
  ⟨rfl, c6_amended_abort_stops_loop envAborted wfThree "b" ["a", "c"] 0
    (initialRunState []) rfl⟩

/-- C7: if a node nd with id b declares a dependency on a, and in the
returned result the entry of a is missing or failed, then the recorded
entry of b (when one exists) has status skipped and the outputs map of
the context has no entry for b. -/
theorem c7_cascading_skip (env : EngineEnv) (w : WorkflowDefinition)
    (initial : List (String × Value)) (a b : String) (nd : NodeConfig)
    (rb : NodeExecutionResult)
    (hnd : nd ∈ w.nodes) (hid : nd.id = b) (hdep : a ∈ nd.dependencies)
    (ha : getKey (executeWorkflow env w initial).nodeResults a = none ∨
      ∃ ra, getKey (executeWorkflow env w initial).nodeResults a = some ra ∧
        ra.status = .failed)
    (hb : getKey (executeWorkflow env w initial).nodeResults b = some rb) :
    rb.status = .skipped ∧
    getKey (executeWorkflow env w initial).context.outputs b = none := by
  unfold executeWorkflow at ha hb ⊢
  rcases hs : validateAndSort w with e | order
  · simp only [hs] at hb
    exact Option.noConfusion hb
  · simp only [hs] at ha hb ⊢
    obtain ⟨hvo, hto⟩ := validateAndSort_ok w order hs
    have hno : order.Nodup := topologicalSort_nodup _ order hto
    have hfind := find?_of_id_nodup w.nodes
      (validateWorkflow_ok_nodup w hvo) nd hnd b hid
    have ha2 : getKey (runNodes env w order 0
          (initialRunState initial)).results a = none ∨
        ∃ ra, getKey (runNodes env w order 0
          (initialRunState initial)).results a = some ra ∧
          ra.status ≠ .success := by
      rcases ha with ha | ⟨ra, hra, hras⟩
      · exact Or.inl ha
      · exact Or.inr ⟨ra, hra, by rw [hras]; decide⟩
    exact runNodes_cascade env w a b nd hfind hdep order 0
      (initialRunState initial) hno (fun k _ => rfl) rfl rfl ha2 rb hb

/-- C7 witness: in the chain workflow where a always throws, the entry
of a is failed, the entry of b is the skipped record, and b never
appears in the outputs map. -/
theorem c7_witness :
    (∃ ra, getKey (executeWorkflow envFailA wfChain []).nodeResults "a" =
      some ra ∧ ra.status = .failed) ∧
    getKey (executeWorkflow envFailA wfChain []).nodeResults "b" =
      some (skippedResult "b") ∧
    ((skippedResult "b").status = .skipped ∧
      getKey (executeWorkflow envFailA wfChain []).context.outputs "b" =
        none) := by
  have hra : ∃ ra, getKey (executeWorkflow envFailA wfChain []).nodeResults
      "a" = some ra ∧ ra.status = .failed :=
    ⟨{ nodeId := "a", status := .failed, error := some "boom",
       attempts := 1 }, rfl, rfl⟩
  have hb : getKey (executeWorkflow envFailA wfChain []).nodeResults "b" =
      some (skippedResult "b") := rfl
  exact ⟨hra, hb, c7_cascading_skip envFailA wfChain [] "a" "b" nodeBdepA
    (skippedResult "b") (List.mem_cons_of_mem _ (List.mem_cons_self _ _))
    rfl (by decide) (Or.inr hra) hb⟩

/-- C8: a node whose retry policy has maxAttempts three and whose
execution throws on every attempt ends failed with attempts three and
the error of the last attempt retained. -/
theorem c8_retry_exhaustion (env : EngineEnv) (node : NodeConfig)
    (ctx : WorkflowContext) (errs : Nat → String) (p : RetryPolicy)
    (hp : node.retryPolicy = some p) (hm : p.maxAttempts = 3)
    (hfail : ∀ a, nodeExecutorExecute env node
      (applyOverrides ctx node.overrides) a = .error (errs a)) :
    executeNode env node ctx false =
      { nodeId := node.id, status := .failed, output := none,
        error := some (errs 3), attempts := 3 } := by
  have hmax : effectiveMaxAttempts node.retryPolicy = 3 := by
    simp [hp, effectiveMaxAttempts, hm]
  unfold executeNode
  rw [hmax]
  simp [attemptLoop, hfail]

/-- C8 witness: the concrete three-attempt node under the always
throwing environment. -/
theorem c8_witness :
    (∀ a, nodeExecutorExecute envAlwaysFail wfRetryNode
        (applyOverrides {} wfRetryNode.overrides) a =
        .error ("boom" ++ toString a)) ∧
    executeNode envAlwaysFail wfRetryNode {} false =
      { nodeId := "r", status := .failed, output := none,
        error := some "boom3", attempts := 3 } := by
  have hf : ∀ a, nodeExecutorExecute envAlwaysFail wfRetryNode
      (applyOverrides {} wfRetryNode.overrides) a =
      .error ("boom" ++ toString a) := fun a => rfl
  exact ⟨hf, c8_retry_exhaustion envAlwaysFail wfRetryNode {}
    (fun a => "boom" ++ toString a) { maxAttempts := 3 } rfl rfl hf⟩

/-- C9: the claim states that executeWorkflow throws for structural
validation failures; the repository test suite asserts the rejection
for a duplicate node id. The code catches the validation error inside
its try block: on the duplicate-id workflow of the test it resolves
normally and returns a failed result with no node results instead of
throwing. -/
theorem c9_validation_error_is_caught :
    validateWorkflow wfDup = .error "Duplicate node ID: node-1" ∧
    (executeWorkflow envOk wfDup []).status = .failed ∧
    (executeWorkflow envOk wfDup []).nodeResults = [] := ⟨rfl, rfl, rfl⟩

/-- C10: a node whose retry policy is missing or has a falsy zero
maxAttempts still performs exactly one execution attempt, because the
JS default expression turns both into one. -/
theorem c10_zero_max_attempts_single_attempt (env : EngineEnv)
    (node : NodeConfig) (ctx : WorkflowContext) (ab : Bool)
    (h : node.retryPolicy = none ∨
      ∃ p, node.retryPolicy = some p ∧ p.maxAttempts = 0) :
    (executeNode env node ctx ab).attempts = 1 := by
  have hm : effectiveMaxAttempts node.retryPolicy = 1 := by
    rcases h with h | ⟨p, hp, hz⟩
    · simp [h, effectiveMaxAttempts]
    · simp [hp, effectiveMaxAttempts, hz]
  unfold executeNode
  rw [hm]
  rcases hx : (if ab then Except.error "Execution aborted"
      else nodeExecutorExecute env node (applyOverrides ctx node.overrides) 1)
    with e | v
  · simp [attemptLoop, hx]
  · simp [attemptLoop, hx]

/-- C10 witness: the concrete node with maxAttempts zero performs one
attempt. -/
theorem c10_witness :
    (∃ p, wfZeroRetryNode.retryPolicy = some p ∧ p.maxAttempts = 0) ∧
    (executeNode envAlwaysFail wfZeroRetryNode {} false).attempts = 1 := by
  have hp : ∃ p, wfZeroRetryNode.retryPolicy = some p ∧ p.maxAttempts = 0 :=
    ⟨{ maxAttempts := 0 }, rfl, rfl⟩
  exact ⟨hp, c10_zero_max_attempts_single_attempt envAlwaysFail
    wfZeroRetryNode {} false (Or.inr hp)⟩

end VSCWorkflow
